import Mathlib

/-!
Shallow embedding of the garnet `RoutingUnit` routing decision engine
(`src/garnet/RoutingUnit.cc`) from the gem5_garnet_wireless repository.

The embedding follows the source file:
* `supportsVnet`              — lines 74-89
* `lookupRoutingTable`        — lines 97-146 (Table Router)
* `addOutDirection` port map  — lines 156-161 (direction-to-index map)
* `outportComputeXY`          — lines 211-265 (Dimension-Order Router)
* `outportComputeCustom`      — lines 269-366 (Hybrid Router)

Machine integers are modelled as `Nat` (router ids, hop counts, weights,
port indices are all non-negative in the source) except where the source
stores possibly `-1` sentinels (`best_hybrid_router`, `dest_hybrid_router`),
which are modelled as `Int`.  `INT_MAX` (`std::numeric_limits<int>::max()`)
is `intMax = 2^31 - 1`.  A `fatal`/`panic` call is modelled as `none` of an
`Option` result.
-/

namespace Garnet

/-- C++ `std::numeric_limits<int>::max()`. -/
def intMax : Nat := 2 ^ 31 - 1

/-- Symbolic port direction.  The source uses free-form strings
("Local", "East", "West", "North", "South", "Wireless_In",
"Wireless_Out" ++ toString hubId, "Unknown"); the dynamically generated
wireless egress strings are in bijection with the embedded hub id, so the
string type is replaced by this closed enumeration. -/
inductive PortDirection where
  | localDir
  | east
  | west
  | north
  | south
  | wirelessIn
  | wirelessOut (hub : Int)
  | unknown
  deriving DecidableEq

/-- Association-list lookup (first binding wins), mirroring lookup in the
router's direction-indexed `std::map`. -/
def dlookup {α β : Type} [DecidableEq α] : List (α × β) → α → Option β
  | [], _ => none
  | (k, v) :: rest, a => if k = a then some v else dlookup rest a

/-- Destination mask: the set of terminal endpoints a packet may target,
modelled as a list of endpoint ids (the source's `NetDest` is an external
bitmask type used only through its non-empty-intersection test). -/
def NetDest : Type := List Nat

instance : DecidableEq NetDest := by
  unfold NetDest
  infer_instance

/-- `NetDest::intersectionIsNotEmpty`: the two endpoint sets share a member. -/
def intersectionIsNotEmpty (a b : NetDest) : Bool :=
  List.any a (fun x => List.contains b x)

/-- State of one `RoutingUnit` (the fields of the C++ class that the
routing calls read): router id, mesh geometry, the outport
direction-to-index map, the hub adjacency map, the per-vnet routing table,
the weight table, and which virtual networks are ordered. -/
structure RouterState where
  myId : Nat
  numRows : Nat
  numCols : Nat
  outDirn2idx : List (PortDirection × Nat)
  hybridConnections : List (Nat × List Nat)
  routingTable : List (List NetDest)
  weightTable : List Nat
  orderedVnets : List Bool

/-- `GarnetNetwork::isVNetOrdered` for this embedding: per-vnet flag. -/
def isVNetOrdered (st : RouterState) (vnet : Nat) : Bool :=
  st.orderedVnets.getD vnet false

/-- Subscripting `m_outports_dirn2idx[d]` (lines 264, 348, 362).  The map
member is declared in the excluded header as a standard C++ map of `int`
values, and `addOutDirection` (line 159) inserts routes through the same
subscript operator, so a subscript on a missing key value-initialises the
entry to `0` and returns it — it does not abort. -/
def dirn2idx (st : RouterState) (d : PortDirection) : Nat :=
  (dlookup st.outDirn2idx d).getD 0

/-- `RoutingUnit::supportsVnet` (lines 74-89). -/
def supportsVnet (vnet : Nat) (sVnets : List Nat) : Bool :=
  if sVnets.length = 0 then
    true
  else if List.contains sVnets vnet then
    true
  else
    false

/-! ### Table Router (`lookupRoutingTable`, lines 97-146) -/

/-- Modelled from the spec: the sentinel `INFINITE_` initialising
`min_weight` (line 108) is declared in a header outside `src/`; per the
spec ("Among candidates, find the minimum weight via WeightTable") it lies
above every configured link weight, so it is represented by `none` and the
first loop of `lookupRoutingTable` (lines 113-120) computes the minimum
weight among the links whose stored mask intersects the destination.
The recursion is over the list of link indices `0, ..., row.length - 1`. -/
def minScanAux (weights : List Nat) (row : List NetDest) (dst : NetDest) :
    List Nat → Option Nat → Option Nat
  | [], mw => mw
  | l :: rest, mw =>
    minScanAux weights row dst rest
      (if intersectionIsNotEmpty dst (row.getD l []) then
        match mw with
        | none => some (weights.getD l 0)
        | some m =>
          if weights.getD l 0 ≤ m then some (weights.getD l 0) else some m
      else mw)

/-- Minimum weight among candidate output links (first loop, lines 113-120). -/
def minWeightScan (weights : List Nat) (row : List NetDest) (dst : NetDest) :
    Option Nat :=
  minScanAux weights row dst (List.range row.length) none

/-- Second loop of `lookupRoutingTable` (lines 123-132): all links whose
stored mask intersects the destination and whose weight equals the minimum
weight. -/
def candidateLinks (weights : List Nat) (row : List NetDest) (dst : NetDest) :
    List Nat :=
  (List.range row.length).filter (fun l =>
    intersectionIsNotEmpty dst (row.getD l []) &&
      decide (some (weights.getD l 0) = minWeightScan weights row dst))

/-- `RoutingUnit::lookupRoutingTable` (lines 97-146).  `r` is the value
drawn from the process-wide pseudo-random source (`rand()`, line 142);
`none` models the `fatal` abort at lines 134-137. -/
def lookupRoutingTable (st : RouterState) (vnet : Nat) (dst : NetDest)
    (r : Nat) : Option Nat :=
  let row := st.routingTable.getD vnet []
  let cands := candidateLinks st.weightTable row dst
  if cands.length = 0 then
    none
  else
    let candidate := if isVNetOrdered st vnet then 0 else r % cands.length
    some (cands.getD candidate 0)

/-! ### Mesh geometry -/

/-- Column of a router id: `id % num_cols` (lines 223, 227, 296, 298). -/
def coordX (cols id : Nat) : Int := Int.ofNat (id % cols)

/-- Row of a router id: `id / num_cols` (lines 224, 228, 297, 299). -/
def coordY (cols id : Nat) : Int := Int.ofNat (id / cols)

/-- Coordinate pair of a router id. -/
def coordP (cols id : Nat) : Int × Int := (coordX cols id, coordY cols id)

/-- Column of a C++ `int`-typed router id (`best_hybrid_router % num_cols`,
line 352): C++ `%` is truncated division remainder. -/
def coordXI (cols : Nat) (i : Int) : Int := Int.tmod i (Int.ofNat cols)

/-- Row of a C++ `int`-typed router id (line 353). -/
def coordYI (cols : Nat) (i : Int) : Int := Int.tdiv i (Int.ofNat cols)

/-- Manhattan distance between two coordinate pairs. -/
def mdist (a b : Int × Int) : Nat :=
  (b.1 - a.1).natAbs + (b.2 - a.2).natAbs

/-- The `calculateHops` lambda (lines 295-301):
`abs(dst_x - src_x) + abs(dst_y - src_y)`. -/
def distM (cols src dst : Nat) : Nat :=
  mdist (coordP cols src) (coordP cols dst)

/-! ### Dimension-Order Router (`outportComputeXY`, lines 211-265) -/

/-- Direction selection of `outportComputeXY` on coordinates
(lines 230-262): horizontal first (East when `dest_x >= my_x`, else West),
then vertical (North when `dest_y >= my_y`, else South); `none` models the
`panic` at line 261 when both hop counts are zero. -/
def xyDirnFromCoords (mx myy dx dy : Int) : Option PortDirection :=
  if 0 < (dx - mx).natAbs then
    some (if mx ≤ dx then PortDirection.east else PortDirection.west)
  else if 0 < (dy - myy).natAbs then
    some (if myy ≤ dy then PortDirection.north else PortDirection.south)
  else
    none

/-- Direction selection of `outportComputeXY` (lines 211-262), decoding
the coordinates from the router ids. -/
def xyOutportDirn (cols myId destId : Nat) : Option PortDirection :=
  xyDirnFromCoords (coordX cols myId) (coordY cols myId)
    (coordX cols destId) (coordY cols destId)

/-- `RoutingUnit::outportComputeXY` (lines 211-265): pick the direction and
resolve it through the outport direction map (line 264). -/
def outportComputeXY (st : RouterState) (destId : Nat) : Option Nat :=
  (xyOutportDirn st.numCols st.myId destId).map (fun d => dirn2idx st d)

/-- Effect of one hop in a symbolic direction on mesh coordinates. -/
def moveDir (d : PortDirection) (p : Int × Int) : Int × Int :=
  match d with
  | PortDirection.east => (p.1 + 1, p.2)
  | PortDirection.west => (p.1 - 1, p.2)
  | PortDirection.north => (p.1, p.2 + 1)
  | PortDirection.south => (p.1, p.2 - 1)
  | _ => p

/-! ### Hybrid Router (`outportComputeCustom`, lines 269-366) -/

/-- Hardcoded hub membership test of the source
(`my_id == 18 || my_id == 45 || my_id == 50 || my_id == 21`,
lines 311 and 345). -/
def isHybridRouterId (i : Nat) : Bool :=
  i == 18 || i == 45 || i == 50 || i == 21

/-- Reading `hybrid_connections[my_id]` (line 313): a missing key
value-initialises to the empty adjacency list. -/
def adjOf (m : List (Nat × List Nat)) (i : Nat) : List Nat :=
  (dlookup m i).getD []

/-- Hub-branch loop (lines 313-320): running
`(hybrid_hops, best_hybrid_router, dest_hybrid_router)` state, updated when
`calculateHops(connected, dest) + 1 < hybrid_hops`. -/
def hubScan (cols destId : Nat) : List Nat → Nat × Int × Int → Nat × Int × Int
  | [], s => s
  | c :: rest, s =>
    let hops := distM cols c destId + 1
    if hops < s.1 then
      hubScan cols destId rest (hops, Int.ofNat c, Int.ofNat c)
    else
      hubScan cols destId rest s

/-- Inner loop of the non-hub branch (lines 328-335) for one adjacency
entry `(h1, adj)`: `total = dist(my, h1) + 1 + dist(h2, dest)`. -/
def pairScan (cols myId destId h1 : Nat) :
    List Nat → Nat × Int × Int → Nat × Int × Int
  | [], s => s
  | h2 :: rest, s =>
    let total := distM cols myId h1 + 1 + distM cols h2 destId
    if total < s.1 then
      pairScan cols myId destId h1 rest (total, Int.ofNat h1, Int.ofNat h2)
    else
      pairScan cols myId destId h1 rest s

/-- Outer loop of the non-hub branch (lines 324-337), iterating over the
hub-adjacency entries in their (unordered-map) iteration order. -/
def nonHubScan (cols myId destId : Nat) :
    List (Nat × List Nat) → Nat × Int × Int → Nat × Int × Int
  | [], s => s
  | p :: rest, s =>
    nonHubScan cols myId destId rest (pairScan cols myId destId p.1 p.2 s)

/-- The `(hybrid_hops, best_hybrid_router, dest_hybrid_router)` triple
after the branch on the hardcoded hub set (lines 307-338), starting from
`(INT_MAX, -1, -1)`. -/
def hybridScanResult (st : RouterState) (destId : Nat) : Nat × Int × Int :=
  if isHybridRouterId st.myId then
    hubScan st.numCols destId (adjOf st.hybridConnections st.myId)
      (intMax, -1, -1)
  else
    nonHubScan st.numCols st.myId destId st.hybridConnections
      (intMax, -1, -1)

/-- Direction of the first step toward an `int`-typed router id
(lines 352-359): East when the target column is larger, West when smaller,
otherwise North/South on the row; `outport_dirn` keeps its initial
"Unknown" value when the coordinates coincide. -/
def stepDirFromCoords (mx myy nx ny : Int) : PortDirection :=
  if mx < nx then PortDirection.east
  else if nx < mx then PortDirection.west
  else if myy < ny then PortDirection.north
  else if ny < myy then PortDirection.south
  else PortDirection.unknown

/-- Direction of the first step toward `best_hybrid_router`
(lines 352-359), decoding the target coordinates with the C++ `int`
division operators. -/
def stepDirTowardI (cols myId : Nat) (best : Int) : PortDirection :=
  stepDirFromCoords (coordX cols myId) (coordY cols myId)
    (coordXI cols best) (coordYI cols best)

/-- `RoutingUnit::outportComputeCustom` (lines 269-366): compare
`hybrid_hops` with `xy_hops`; on the strict-less hybrid path resolve either
the wireless egress for the chosen hub (hub branch, lines 345-349) or the
one-step direction toward the chosen hub (lines 350-363); otherwise fall
back to `outportComputeXY` with hub id `-1` (line 365). -/
def outportComputeCustom (st : RouterState) (destId : Nat) :
    Option (Nat × Int) :=
  if (hybridScanResult st destId).1 < distM st.numCols st.myId destId then
    if isHybridRouterId st.myId then
      some (dirn2idx st
          (PortDirection.wirelessOut (hybridScanResult st destId).2.2),
        (hybridScanResult st destId).2.2)
    else
      some (dirn2idx st
          (stepDirTowardI st.numCols st.myId (hybridScanResult st destId).2.1),
        (hybridScanResult st destId).2.2)
  else
    (outportComputeXY st destId).map (fun p => (p, -1))

/-! ### Minimum-of-cost-list forms used to state hybrid optimality -/

/-- Candidate costs considered by the hub branch: one wireless hop to each
adjacent hub, then wired to the destination. -/
def hubCosts (cols destId : Nat) (adj : List Nat) : List Nat :=
  adj.map (fun c => distM cols c destId + 1)

/-- Candidate costs of every single-wireless-hop path through the
hub-adjacency graph: wired to an entry hub `h1`, one wireless hop to an
adjacent exit hub `h2`, wired from `h2` to the destination. -/
def pairCosts (cols myId destId : Nat) : List (Nat × List Nat) → List Nat
  | [] => []
  | p :: rest =>
    (p.2.map (fun h2 => distM cols myId p.1 + 1 + distM cols h2 destId)) ++
      pairCosts cols myId destId rest

/-- Minimum of a cost list, capped by `INT_MAX`. -/
def listMin (l : List Nat) : Nat := List.foldr min intMax l

/-! ## Geometry lemmas -/

/-- Two router ids with the same column and row are equal. -/
lemma id_eq_of_coords_eq (cols a b : Nat) (hx : coordX cols a = coordX cols b)
    (hy : coordY cols a = coordY cols b) : a = b := by
  unfold coordX at hx
  unfold coordY at hy
  have hx2 : a % cols = b % cols := Int.ofNat.inj hx
  have hy2 : a / cols = b / cols := Int.ofNat.inj hy
  calc a = cols * (a / cols) + a % cols := (Nat.div_add_mod a cols).symm
    _ = cols * (b / cols) + b % cols := by rw [hx2, hy2]
    _ = b := Nat.div_add_mod b cols

/-- Distinct router ids decode to distinct coordinate pairs. -/
lemma coords_ne_of_id_ne (cols a b : Nat) (h : a ≠ b) :
    coordX cols a ≠ coordX cols b ∨ coordY cols a ≠ coordY cols b := by
  by_contra hc
  push_neg at hc
  exact h (id_eq_of_coords_eq cols a b hc.1 hc.2)

/-- Core property of the dimension-order direction choice: when the two
coordinate pairs differ, a direction is produced, it is the horizontal one
exactly when the columns differ, it obeys the sign rules of the source,
and one step in that direction reduces the Manhattan distance by one. -/
lemma xyDirnFromCoords_spec (mx myy dx dy : Int)
    (h : ¬(dx = mx ∧ dy = myy)) :
    ∃ d, xyDirnFromCoords mx myy dx dy = some d ∧
      (dx ≠ mx →
        ((mx ≤ dx → d = PortDirection.east) ∧
         (dx < mx → d = PortDirection.west))) ∧
      (dx = mx →
        ((myy ≤ dy → d = PortDirection.north) ∧
         (dy < myy → d = PortDirection.south))) ∧
      mdist (moveDir d (mx, myy)) (dx, dy) + 1 = mdist (mx, myy) (dx, dy) := by
  unfold xyDirnFromCoords
  split_ifs with h1 h2 h3 h4
  · refine ⟨PortDirection.east, rfl, ?_, ?_, ?_⟩
    · intro _; exact ⟨fun _ => rfl, fun hlt => by omega⟩
    · intro hdx; omega
    · simp only [moveDir, mdist]; omega
  · refine ⟨PortDirection.west, rfl, ?_, ?_, ?_⟩
    · intro _; exact ⟨fun hle => by omega, fun _ => rfl⟩
    · intro hdx; omega
    · simp only [moveDir, mdist]; omega
  · refine ⟨PortDirection.north, rfl, ?_, ?_, ?_⟩
    · intro hne; omega
    · intro _; exact ⟨fun _ => rfl, fun hlt => by omega⟩
    · simp only [moveDir, mdist]; omega
  · refine ⟨PortDirection.south, rfl, ?_, ?_, ?_⟩
    · intro hne; omega
    · intro _; exact ⟨fun hle => by omega, fun _ => rfl⟩
    · simp only [moveDir, mdist]; omega
  · exact absurd ⟨by omega, by omega⟩ h

/-- The dimension-order direction exists whenever source and destination
router differ. -/
lemma xyOutportDirn_isSome (cols myId destId : Nat) (h : myId ≠ destId) :
    ∃ d, xyOutportDirn cols myId destId = some d := by
  have hc := coords_ne_of_id_ne cols myId destId h
  obtain ⟨d, hd, -⟩ :=
    xyDirnFromCoords_spec (coordX cols myId) (coordY cols myId)
      (coordX cols destId) (coordY cols destId)
      (by rcases hc with h1 | h1
          · exact fun hand => h1 hand.1.symm
          · exact fun hand => h1 hand.2.symm)
  exact ⟨d, hd⟩

/-! ## Claim C7 -/

/-- C7: on a mesh with positive row and column counts, for distinct
current and destination routers, `outportComputeXY` chooses a single-axis
move toward the destination — horizontal whenever the columns differ (East
when the destination column is at least the own column, else West),
otherwise vertical (North when the destination row is at least the own
row, else South) — and that move reduces the Manhattan distance to the
destination by exactly one. -/
theorem c7_xy_monotone (rows cols myId destId : Nat)
    (_hrows : 0 < rows) (_hcols : 0 < cols) (hne : myId ≠ destId) :
    ∃ d, xyOutportDirn cols myId destId = some d ∧
      (coordX cols destId ≠ coordX cols myId →
        ((coordX cols myId ≤ coordX cols destId → d = PortDirection.east) ∧
         (coordX cols destId < coordX cols myId → d = PortDirection.west))) ∧
      (coordX cols destId = coordX cols myId →
        ((coordY cols myId ≤ coordY cols destId → d = PortDirection.north) ∧
         (coordY cols destId < coordY cols myId → d = PortDirection.south))) ∧
      mdist (moveDir d (coordP cols myId)) (coordP cols destId) + 1 =
        distM cols myId destId := by
  have hc := coords_ne_of_id_ne cols myId destId hne
  obtain ⟨d, hd, hh, hv, hm⟩ :=
    xyDirnFromCoords_spec (coordX cols myId) (coordY cols myId)
      (coordX cols destId) (coordY cols destId)
      (by rcases hc with h1 | h1
          · exact fun hand => h1 hand.1.symm
          · exact fun hand => h1 hand.2.symm)
  exact ⟨d, hd, hh, hv, hm⟩

/-- C7 witness: a concrete application on an 8x8 mesh from router 0 to
router 9. -/
theorem c7_xy_monotone_witness :
    0 < 8 ∧ (0 : Nat) ≠ 9 ∧
      (∃ d, xyOutportDirn 8 0 9 = some d ∧
        (coordX 8 9 ≠ coordX 8 0 →
          ((coordX 8 0 ≤ coordX 8 9 → d = PortDirection.east) ∧
           (coordX 8 9 < coordX 8 0 → d = PortDirection.west))) ∧
        (coordX 8 9 = coordX 8 0 →
          ((coordY 8 0 ≤ coordY 8 9 → d = PortDirection.north) ∧
           (coordY 8 9 < coordY 8 0 → d = PortDirection.south))) ∧
        mdist (moveDir d (coordP 8 0)) (coordP 8 9) + 1 = distM 8 0 9) :=
  ⟨by decide, by decide, c7_xy_monotone 8 8 0 9 (by decide) (by decide) (by decide)⟩

/-! ## Claim C10 -/

/-- C10: `supportsVnet` returns true exactly when the supported-vnets list
is empty or contains the requested vnet. -/
theorem c10_supportsVnet (vnet : Nat) (sVnets : List Nat) :
    supportsVnet vnet sVnets = true ↔ sVnets = [] ∨ vnet ∈ sVnets := by
  unfold supportsVnet
  split_ifs with h1 h2
  · simp [List.length_eq_zero.mp h1]
  · have : vnet ∈ sVnets := by simpa using h2
    simp [this]
  · constructor
    · intro hfalse; cases hfalse
    · intro hcase
      rcases hcase with hnil | hmem
      · exact absurd (by simp [hnil]) h1
      · exact absurd (by simpa using hmem) h2

/-! ## Claim C1 -/

/-- C1 counterexample: at router 0 of an 8-column mesh whose outport
direction map is empty, the computed direction East has no registered
port, yet `outportComputeXY` returns port index 0 (the value-initialised
map entry) instead of halting fatally. -/
theorem c1_unresolved_direction_counterexample :
    xyOutportDirn 8 0 1 = some PortDirection.east ∧
      dlookup ((RouterState.mk 0 8 8 [] [] [] [] []).outDirn2idx)
        PortDirection.east = none ∧
      outportComputeXY (RouterState.mk 0 8 8 [] [] [] [] []) 1 = some 0 :=
  ⟨by decide, rfl, by decide⟩

/-- C1 amended: when the computed dimension-order direction has no entry
in the router's outport direction map, the engine does not halt: the map
subscript value-initialises the missing entry and the call returns port
index 0. -/
theorem c1_amended_default_port (st : RouterState) (destId : Nat)
    (d : PortDirection)
    (h1 : xyOutportDirn st.numCols st.myId destId = some d)
    (h2 : dlookup st.outDirn2idx d = none) :
    outportComputeXY st destId = some 0 := by
  unfold outportComputeXY
  rw [h1]
  simp [dirn2idx, h2]

/-- C1 witness: concrete unregistered-direction call returning port 0. -/
theorem c1_amended_default_port_witness :
    xyOutportDirn 8 0 2 = some PortDirection.east ∧
      dlookup ((RouterState.mk 0 8 8 [] [] [] [] []).outDirn2idx)
        PortDirection.east = none ∧
      outportComputeXY (RouterState.mk 0 8 8 [] [] [] [] []) 2 = some 0 :=
  ⟨by decide, rfl,
    c1_amended_default_port (RouterState.mk 0 8 8 [] [] [] [] []) 2
      PortDirection.east (by decide) rfl⟩

/-! ## Table Router lemmas -/

/-- Unfolding one step of the first loop. -/
lemma minScanAux_cons (weights : List Nat) (row : List NetDest)
    (dst : NetDest) (l0 : Nat) (rest : List Nat) (mw : Option Nat) :
    minScanAux weights row dst (l0 :: rest) mw =
      minScanAux weights row dst rest
        (if intersectionIsNotEmpty dst (row.getD l0 []) then
          match mw with
          | none => some (weights.getD l0 0)
          | some m =>
            if weights.getD l0 0 ≤ m then some (weights.getD l0 0) else some m
        else mw) := rfl

/-- Step lemma: non-intersecting link, running minimum unchanged. -/
lemma minScanAux_cons_neg (weights : List Nat) (row : List NetDest)
    (dst : NetDest) (l0 : Nat) (rest : List Nat) (mw : Option Nat)
    (hI : intersectionIsNotEmpty dst (row.getD l0 []) = false) :
    minScanAux weights row dst (l0 :: rest) mw =
      minScanAux weights row dst rest mw := by
  rw [minScanAux_cons, if_neg (by rw [hI]; simp)]

/-- Step lemma: intersecting link seen with no running minimum yet. -/
lemma minScanAux_cons_pos_none (weights : List Nat) (row : List NetDest)
    (dst : NetDest) (l0 : Nat) (rest : List Nat)
    (hI : intersectionIsNotEmpty dst (row.getD l0 []) = true) :
    minScanAux weights row dst (l0 :: rest) none =
      minScanAux weights row dst rest (some (weights.getD l0 0)) := by
  rw [minScanAux_cons, if_pos hI]

/-- Step lemma: intersecting link seen with a running minimum. -/
lemma minScanAux_cons_pos_some (weights : List Nat) (row : List NetDest)
    (dst : NetDest) (l0 : Nat) (rest : List Nat) (m0 : Nat)
    (hI : intersectionIsNotEmpty dst (row.getD l0 []) = true) :
    minScanAux weights row dst (l0 :: rest) (some m0) =
      minScanAux weights row dst rest
        (if weights.getD l0 0 ≤ m0 then some (weights.getD l0 0)
         else some m0) := by
  rw [minScanAux_cons, if_pos hI]

/-- The first loop leaves `none` only when no scanned link intersects. -/
lemma minScanAux_eq_none_iff (weights : List Nat) (row : List NetDest)
    (dst : NetDest) (L : List Nat) (mw : Option Nat) :
    minScanAux weights row dst L mw = none ↔
      mw = none ∧ ∀ l ∈ L, intersectionIsNotEmpty dst (row.getD l []) = false := by
  induction L generalizing mw with
  | nil => simp [minScanAux]
  | cons l0 rest ih =>
    rcases hI : intersectionIsNotEmpty dst (row.getD l0 []) with _ | _
    · rw [minScanAux_cons_neg weights row dst l0 rest mw hI, ih]
      constructor
      · rintro ⟨h1, h2⟩
        refine ⟨h1, ?_⟩
        intro l hl
        rcases List.mem_cons.mp hl with rfl | hmem
        · exact hI
        · exact h2 l hmem
      · rintro ⟨h1, h2⟩
        exact ⟨h1, fun l hl => h2 l (List.mem_cons_of_mem _ hl)⟩
    · constructor
      · intro h1
        exfalso
        rcases mw with _ | m
        · rw [minScanAux_cons_pos_none weights row dst l0 rest hI, ih] at h1
          exact Option.noConfusion h1.1
        · rw [minScanAux_cons_pos_some weights row dst l0 rest m hI, ih] at h1
          by_cases hle : weights.getD l0 0 ≤ m
          · rw [if_pos hle] at h1
            exact Option.noConfusion h1.1
          · rw [if_neg hle] at h1
            exact Option.noConfusion h1.1
      · rintro ⟨-, h2⟩
        exact absurd (h2 l0 (List.mem_cons_self l0 rest)) (by rw [hI]; simp)

/-- The scanned minimum never exceeds the running minimum it starts from. -/
lemma minScanAux_le_start (weights : List Nat) (row : List NetDest)
    (dst : NetDest) (L : List Nat) (m0 m : Nat)
    (h : minScanAux weights row dst L (some m0) = some m) : m ≤ m0 := by
  induction L generalizing m0 with
  | nil =>
    simp [minScanAux] at h
    omega
  | cons l0 rest ih =>
    rcases hI : intersectionIsNotEmpty dst (row.getD l0 []) with _ | _
    · rw [minScanAux_cons_neg weights row dst l0 rest _ hI] at h
      exact ih m0 h
    · rw [minScanAux_cons_pos_some weights row dst l0 rest m0 hI] at h
      by_cases hle : weights.getD l0 0 ≤ m0
      · rw [if_pos hle] at h
        exact le_trans (ih _ h) hle
      · rw [if_neg hle] at h
        exact ih m0 h

/-- The scanned minimum is a lower bound for every intersecting scanned
link weight. -/
lemma minScanAux_lower_bound (weights : List Nat) (row : List NetDest)
    (dst : NetDest) (L : List Nat) (mw : Option Nat) (m : Nat)
    (h : minScanAux weights row dst L mw = some m) :
    ∀ l ∈ L, intersectionIsNotEmpty dst (row.getD l []) = true →
      m ≤ weights.getD l 0 := by
  induction L generalizing mw with
  | nil => intro l hl; cases hl
  | cons l0 rest ih =>
    intro l hl hInter
    rcases hI : intersectionIsNotEmpty dst (row.getD l0 []) with _ | _
    · rw [minScanAux_cons_neg weights row dst l0 rest _ hI] at h
      rcases List.mem_cons.mp hl with rfl | hmem
      · rw [hI] at hInter; cases hInter
      · exact ih mw h l hmem hInter
    · rcases List.mem_cons.mp hl with rfl | hmem
      · rcases mw with _ | m1
        · rw [minScanAux_cons_pos_none weights row dst l rest hI] at h
          exact minScanAux_le_start weights row dst rest _ m h
        · rw [minScanAux_cons_pos_some weights row dst l rest m1 hI] at h
          by_cases hle : weights.getD l 0 ≤ m1
          · rw [if_pos hle] at h
            exact minScanAux_le_start weights row dst rest _ m h
          · rw [if_neg hle] at h
            exact le_trans (minScanAux_le_start weights row dst rest _ m h)
              (by omega)
      · rcases mw with _ | m1
        · rw [minScanAux_cons_pos_none weights row dst l0 rest hI] at h
          exact ih _ h l hmem hInter
        · rw [minScanAux_cons_pos_some weights row dst l0 rest m1 hI] at h
          by_cases hle : weights.getD l0 0 ≤ m1
          · rw [if_pos hle] at h
            exact ih _ h l hmem hInter
          · rw [if_neg hle] at h
            exact ih _ h l hmem hInter

/-- The scanned minimum is attained at some intersecting scanned link,
unless it was already the starting value. -/
lemma minScanAux_attained (weights : List Nat) (row : List NetDest)
    (dst : NetDest) (L : List Nat) (mw : Option Nat) (m : Nat)
    (h : minScanAux weights row dst L mw = some m) :
    (∃ l ∈ L, intersectionIsNotEmpty dst (row.getD l []) = true ∧
      m = weights.getD l 0) ∨ mw = some m := by
  induction L generalizing mw with
  | nil =>
    right
    simpa [minScanAux] using h
  | cons l0 rest ih =>
    rcases hI : intersectionIsNotEmpty dst (row.getD l0 []) with _ | _
    · rw [minScanAux_cons_neg weights row dst l0 rest _ hI] at h
      rcases ih mw h with ⟨l, hl, hi, hm⟩ | hm
      · exact Or.inl ⟨l, List.mem_cons_of_mem _ hl, hi, hm⟩
      · exact Or.inr hm
    · rcases mw with _ | m1
      · rw [minScanAux_cons_pos_none weights row dst l0 rest hI] at h
        rcases ih _ h with ⟨l, hl, hi, hm⟩ | hm
        · exact Or.inl ⟨l, List.mem_cons_of_mem _ hl, hi, hm⟩
        · refine Or.inl ⟨l0, List.mem_cons_self l0 rest, hI, ?_⟩
          injection hm with hm2
          omega
      · rw [minScanAux_cons_pos_some weights row dst l0 rest m1 hI] at h
        by_cases hle : weights.getD l0 0 ≤ m1
        · rw [if_pos hle] at h
          rcases ih _ h with ⟨l, hl, hi, hm⟩ | hm
          · exact Or.inl ⟨l, List.mem_cons_of_mem _ hl, hi, hm⟩
          · refine Or.inl ⟨l0, List.mem_cons_self l0 rest, hI, ?_⟩
            injection hm with hm2
            omega
        · rw [if_neg hle] at h
          rcases ih _ h with ⟨l, hl, hi, hm⟩ | hm
          · exact Or.inl ⟨l, List.mem_cons_of_mem _ hl, hi, hm⟩
          · exact Or.inr hm

/-- Membership in the candidate list of the second loop. -/
lemma mem_candidateLinks (weights : List Nat) (row : List NetDest)
    (dst : NetDest) (l : Nat) :
    l ∈ candidateLinks weights row dst ↔
      l < row.length ∧ intersectionIsNotEmpty dst (row.getD l []) = true ∧
        some (weights.getD l 0) = minWeightScan weights row dst := by
  unfold candidateLinks
  rw [List.mem_filter, List.mem_range]
  simp [and_assoc]

/-- With at least one intersecting link the candidate list is non-empty. -/
lemma candidateLinks_ne_nil (weights : List Nat) (row : List NetDest)
    (dst : NetDest)
    (hex : ∃ l, l < row.length ∧
      intersectionIsNotEmpty dst (row.getD l []) = true) :
    candidateLinks weights row dst ≠ [] := by
  obtain ⟨l, hl, hi⟩ := hex
  rcases hmw : minWeightScan weights row dst with _ | m
  · rw [minWeightScan, minScanAux_eq_none_iff] at hmw
    exact absurd (hmw.2 l (List.mem_range.mpr hl)) (by rw [hi]; simp)
  · rcases minScanAux_attained weights row dst (List.range row.length) none m
        hmw with ⟨l2, hl2, hi2, hm2⟩ | hcontra
    · intro hnil
      have : l2 ∈ candidateLinks weights row dst :=
        (mem_candidateLinks weights row dst l2).mpr
          ⟨List.mem_range.mp hl2, hi2, by rw [hmw, hm2]⟩
      rw [hnil] at this
      cases this
    · cases hcontra

/-- A successful table lookup returns a member of the candidate list. -/
lemma lookup_some_mem (st : RouterState) (vnet : Nat) (dst : NetDest)
    (r p : Nat) (h : lookupRoutingTable st vnet dst r = some p) :
    p ∈ candidateLinks st.weightTable (st.routingTable.getD vnet []) dst := by
  unfold lookupRoutingTable at h
  set cands := candidateLinks st.weightTable (st.routingTable.getD vnet []) dst
    with hcands
  by_cases hlen : cands.length = 0
  · rw [if_pos hlen] at h
    cases h
  · rw [if_neg hlen] at h
    injection h with h2
    have hpos : 0 < cands.length := Nat.pos_of_ne_zero hlen
    have hidx : (if isVNetOrdered st vnet then 0 else r % cands.length) <
        cands.length := by
      by_cases hord : isVNetOrdered st vnet
      · simpa [hord] using hpos
      · simpa [hord] using Nat.mod_lt r hpos
    rw [← h2, List.getD_eq_getElem?_getD, List.getElem?_eq_getElem hidx]
    exact List.getElem_mem hidx

/-- A non-empty candidate list makes the lookup succeed. -/
lemma lookup_isSome (st : RouterState) (vnet : Nat) (dst : NetDest) (r : Nat)
    (hne : candidateLinks st.weightTable (st.routingTable.getD vnet []) dst ≠
      []) :
    ∃ p, lookupRoutingTable st vnet dst r = some p := by
  unfold lookupRoutingTable
  have hlen :
      (candidateLinks st.weightTable (st.routingTable.getD vnet []) dst).length
        ≠ 0 := by
    intro h0
    exact hne (List.length_eq_zero.mp h0)
  rw [if_neg hlen]
  exact ⟨_, rfl⟩

/-! ## Claim C4 -/

/-- C4: whenever the requested virtual network is a valid row, the weight
table covers the row, and at least one registered port mask intersects the
destination mask, the lookup returns a port whose stored mask intersects
the destination mask and whose weight is minimal among all intersecting
ports. -/
theorem c4_lookup_coverage_min_weight (st : RouterState) (vnet : Nat)
    (dst : NetDest) (r : Nat)
    (hv : vnet < st.routingTable.length)
    (hw : (st.routingTable.getD vnet []).length ≤ st.weightTable.length)
    (hex : ∃ l, l < (st.routingTable.getD vnet []).length ∧
      intersectionIsNotEmpty dst
        ((st.routingTable.getD vnet []).getD l []) = true) :
    ∃ p, lookupRoutingTable st vnet dst r = some p ∧
      p < (st.routingTable.getD vnet []).length ∧
      intersectionIsNotEmpty dst
        ((st.routingTable.getD vnet []).getD p []) = true ∧
      ∀ l, l < (st.routingTable.getD vnet []).length →
        intersectionIsNotEmpty dst
          ((st.routingTable.getD vnet []).getD l []) = true →
        st.weightTable.getD p 0 ≤ st.weightTable.getD l 0 := by
  obtain ⟨p, hp⟩ := lookup_isSome st vnet dst r
    (candidateLinks_ne_nil st.weightTable (st.routingTable.getD vnet []) dst
      hex)
  have hmem := lookup_some_mem st vnet dst r p hp
  rw [mem_candidateLinks] at hmem
  obtain ⟨hlen, hint, hmin⟩ := hmem
  refine ⟨p, hp, hlen, hint, ?_⟩
  intro l hl hil
  exact minScanAux_lower_bound st.weightTable (st.routingTable.getD vnet [])
    dst (List.range (st.routingTable.getD vnet []).length) none
    (st.weightTable.getD p 0) hmin.symm l (List.mem_range.mpr hl) hil

/-- C4 witness: a concrete three-port table where ports 0 and 2 intersect
the destination with weights 4 and 2; the lookup picks a minimal
intersecting port. -/
theorem c4_lookup_coverage_min_weight_witness :
    (0 : Nat) < 1 ∧ (3 : Nat) ≤ 3 ∧
      (∃ l, l < ((RouterState.mk 0 8 8 [] [] [[[5], [7], [5]]] [4, 1, 2]
          [true]).routingTable.getD 0 []).length ∧
        intersectionIsNotEmpty [5]
          (((RouterState.mk 0 8 8 [] [] [[[5], [7], [5]]] [4, 1, 2]
            [true]).routingTable.getD 0 []).getD l []) = true) ∧
      (∃ p, lookupRoutingTable (RouterState.mk 0 8 8 [] [] [[[5], [7], [5]]]
          [4, 1, 2] [true]) 0 [5] 0 = some p ∧
        p < ((RouterState.mk 0 8 8 [] [] [[[5], [7], [5]]] [4, 1, 2]
          [true]).routingTable.getD 0 []).length ∧
        intersectionIsNotEmpty [5]
          (((RouterState.mk 0 8 8 [] [] [[[5], [7], [5]]] [4, 1, 2]
            [true]).routingTable.getD 0 []).getD p []) = true ∧
        ∀ l, l < ((RouterState.mk 0 8 8 [] [] [[[5], [7], [5]]] [4, 1, 2]
            [true]).routingTable.getD 0 []).length →
          intersectionIsNotEmpty [5]
            (((RouterState.mk 0 8 8 [] [] [[[5], [7], [5]]] [4, 1, 2]
              [true]).routingTable.getD 0 []).getD l []) = true →
          (RouterState.mk 0 8 8 [] [] [[[5], [7], [5]]] [4, 1, 2]
            [true]).weightTable.getD p 0 ≤
            (RouterState.mk 0 8 8 [] [] [[[5], [7], [5]]] [4, 1, 2]
              [true]).weightTable.getD l 0) :=
  ⟨by decide, by decide, ⟨0, by decide, by decide⟩,
    c4_lookup_coverage_min_weight
      (RouterState.mk 0 8 8 [] [] [[[5], [7], [5]]] [4, 1, 2] [true]) 0 [5] 0
      (by decide) (by decide) ⟨0, by decide, by decide⟩⟩

/-! ## Claim C5 -/

/-- C5: the table lookup aborts fatally exactly when no registered port
mask intersects the destination mask, and returns no port in that case. -/
theorem c5_no_route_fatal_iff (st : RouterState) (vnet : Nat) (dst : NetDest)
    (r : Nat) (hv : vnet < st.routingTable.length) :
    lookupRoutingTable st vnet dst r = none ↔
      ∀ l, l < (st.routingTable.getD vnet []).length →
        intersectionIsNotEmpty dst
          ((st.routingTable.getD vnet []).getD l []) = false := by
  constructor
  · intro hnone
    intro l hl
    by_contra hne
    have hi : intersectionIsNotEmpty dst
        ((st.routingTable.getD vnet []).getD l []) = true := by
      rcases hb : intersectionIsNotEmpty dst
          ((st.routingTable.getD vnet []).getD l []) with _ | _
      · exact absurd hb hne
      · rfl
    obtain ⟨p, hp⟩ := lookup_isSome st vnet dst r
      (candidateLinks_ne_nil st.weightTable (st.routingTable.getD vnet [])
        dst ⟨l, hl, hi⟩)
    rw [hnone] at hp
    cases hp
  · intro hall
    have hnil : candidateLinks st.weightTable (st.routingTable.getD vnet [])
        dst = [] := by
      rw [List.eq_nil_iff_forall_not_mem]
      intro l hl
      rw [mem_candidateLinks] at hl
      exact absurd (hall l hl.1) (by rw [hl.2.1]; simp)
    unfold lookupRoutingTable
    simp
    simpa using hnil

/-- C5 witness: a destination mask intersecting no port aborts; one
intersecting some port does not. -/
theorem c5_no_route_fatal_iff_witness :
    (0 : Nat) < 1 ∧
      (lookupRoutingTable (RouterState.mk 0 8 8 [] [] [[[5], [7], [5]]]
          [4, 1, 2] [true]) 0 [9] 0 = none ↔
        ∀ l, l < ((RouterState.mk 0 8 8 [] [] [[[5], [7], [5]]] [4, 1, 2]
            [true]).routingTable.getD 0 []).length →
          intersectionIsNotEmpty [9]
            (((RouterState.mk 0 8 8 [] [] [[[5], [7], [5]]] [4, 1, 2]
              [true]).routingTable.getD 0 []).getD l []) = false) :=
  ⟨by decide,
    c5_no_route_fatal_iff
      (RouterState.mk 0 8 8 [] [] [[[5], [7], [5]]] [4, 1, 2] [true]) 0 [9] 0
      (by decide)⟩

/-- On an ordered virtual network a successful lookup returns the head of
the candidate list. -/
lemma lookup_ordered_eq_head (st : RouterState) (vnet : Nat) (dst : NetDest)
    (r : Nat) (hord : isVNetOrdered st vnet = true) (p : Nat)
    (h : lookupRoutingTable st vnet dst r = some p) :
    ∃ tail, candidateLinks st.weightTable (st.routingTable.getD vnet []) dst =
      p :: tail := by
  unfold lookupRoutingTable at h
  set cands := candidateLinks st.weightTable (st.routingTable.getD vnet []) dst
    with hcands
  by_cases hlen : cands.length = 0
  · rw [if_pos hlen] at h
    cases h
  · rw [if_neg hlen] at h
    injection h with h2
    have hidx : (if isVNetOrdered st vnet then 0 else r % cands.length) = 0 := by
      simp [hord]
    rw [hidx] at h2
    rw [← hcands] at h2
    obtain ⟨p0, tail, hc⟩ := List.exists_cons_of_ne_nil
      (fun hn : cands = [] => hlen (by rw [hn]; rfl))
    rw [hc] at h2
    have hp0 : p0 = p := by simpa using h2
    exact ⟨tail, by rw [hc, hp0]⟩

/-! ## Claim C6 -/

/-- C6: on an ordered virtual network the lookup is independent of the
pseudo-random draw, and the returned port is the first (lowest-index)
intersecting port of minimum weight in table order. -/
theorem c6_ordered_deterministic (st : RouterState) (vnet : Nat)
    (dst : NetDest) (r1 r2 : Nat)
    (hv : vnet < st.routingTable.length)
    (hord : isVNetOrdered st vnet = true) :
    lookupRoutingTable st vnet dst r1 = lookupRoutingTable st vnet dst r2 ∧
      ∀ p, lookupRoutingTable st vnet dst r1 = some p →
        intersectionIsNotEmpty dst
            ((st.routingTable.getD vnet []).getD p []) = true ∧
          some (st.weightTable.getD p 0) =
            minWeightScan st.weightTable (st.routingTable.getD vnet []) dst ∧
          ∀ q, q < p →
            ¬(intersectionIsNotEmpty dst
                ((st.routingTable.getD vnet []).getD q []) = true ∧
              some (st.weightTable.getD q 0) =
                minWeightScan st.weightTable (st.routingTable.getD vnet [])
                  dst) := by
  constructor
  · unfold lookupRoutingTable
    simp [hord]
  · intro p hp
    have hmem := lookup_some_mem st vnet dst r1 p hp
    have hmem2 := (mem_candidateLinks _ _ _ p).mp hmem
    refine ⟨hmem2.2.1, hmem2.2.2, ?_⟩
    intro q hq hqprop
    have hqlen : q < (st.routingTable.getD vnet []).length := by
      have := hmem2.1
      omega
    have hqmem : q ∈ candidateLinks st.weightTable
        (st.routingTable.getD vnet []) dst :=
      (mem_candidateLinks _ _ _ q).mpr ⟨hqlen, hqprop.1, hqprop.2⟩
    obtain ⟨tail, hc⟩ := lookup_ordered_eq_head st vnet dst r1 hord p hp
    have hsorted : (candidateLinks st.weightTable
        (st.routingTable.getD vnet []) dst).Pairwise (· < ·) :=
      (List.pairwise_lt_range _).sublist (List.filter_sublist _)
    rw [hc] at hsorted hqmem
    rcases List.mem_cons.mp hqmem with rfl | htail
    · omega
    · have := (List.pairwise_cons.mp hsorted).1 q htail
      omega

/-- C6 witness: two different random draws on an ordered network give the
same port, and the port is the first minimal intersecting one. -/
theorem c6_ordered_deterministic_witness :
    (0 : Nat) < 1 ∧
      isVNetOrdered (RouterState.mk 0 8 8 [] [] [[[5], [7], [5]]] [4, 1, 2]
        [true]) 0 = true ∧
      (lookupRoutingTable (RouterState.mk 0 8 8 [] [] [[[5], [7], [5]]]
          [4, 1, 2] [true]) 0 [5] 3 =
        lookupRoutingTable (RouterState.mk 0 8 8 [] [] [[[5], [7], [5]]]
          [4, 1, 2] [true]) 0 [5] 8 ∧
        ∀ p, lookupRoutingTable (RouterState.mk 0 8 8 [] [] [[[5], [7], [5]]]
            [4, 1, 2] [true]) 0 [5] 3 = some p →
          intersectionIsNotEmpty [5]
              (((RouterState.mk 0 8 8 [] [] [[[5], [7], [5]]] [4, 1, 2]
                [true]).routingTable.getD 0 []).getD p []) = true ∧
            some ((RouterState.mk 0 8 8 [] [] [[[5], [7], [5]]] [4, 1, 2]
                [true]).weightTable.getD p 0) =
              minWeightScan (RouterState.mk 0 8 8 [] [] [[[5], [7], [5]]]
                  [4, 1, 2] [true]).weightTable
                ((RouterState.mk 0 8 8 [] [] [[[5], [7], [5]]] [4, 1, 2]
                  [true]).routingTable.getD 0 []) [5] ∧
            ∀ q, q < p →
              ¬(intersectionIsNotEmpty [5]
                  (((RouterState.mk 0 8 8 [] [] [[[5], [7], [5]]] [4, 1, 2]
                    [true]).routingTable.getD 0 []).getD q []) = true ∧
                some ((RouterState.mk 0 8 8 [] [] [[[5], [7], [5]]] [4, 1, 2]
                    [true]).weightTable.getD q 0) =
                  minWeightScan (RouterState.mk 0 8 8 [] [] [[[5], [7], [5]]]
                      [4, 1, 2] [true]).weightTable
                    ((RouterState.mk 0 8 8 [] [] [[[5], [7], [5]]] [4, 1, 2]
                      [true]).routingTable.getD 0 []) [5])) :=
  ⟨by decide, by decide,
    c6_ordered_deterministic
      (RouterState.mk 0 8 8 [] [] [[[5], [7], [5]]] [4, 1, 2] [true]) 0 [5]
      3 8 (by decide) (by decide)⟩

/-! ## Hybrid Router lemmas -/

/-- Folding `min` never rises above the initial value. -/
lemma foldr_min_le_init (a : Nat) (l : List Nat) : List.foldr min a l ≤ a := by
  induction l with
  | nil => exact le_refl a
  | cons c rest ih => exact le_trans (min_le_right _ _) ih

/-- Folding `min` is a lower bound for every list member. -/
lemma foldr_min_le_mem {x : Nat} {l : List Nat} (h : x ∈ l) (a : Nat) :
    List.foldr min a l ≤ x := by
  induction l with
  | nil => cases h
  | cons c rest ih =>
    rcases List.mem_cons.mp h with rfl | hmem
    · exact min_le_left _ _
    · exact le_trans (min_le_right _ _) (ih hmem)

/-- Shifting an element out of the initial value of a `min` fold. -/
lemma foldr_min_shift (a b : Nat) (l : List Nat) :
    List.foldr min (min a b) l = min a (List.foldr min b l) := by
  induction l with
  | nil => rfl
  | cons c rest ih =>
    simp only [List.foldr_cons, ih]
    rw [min_left_comm]

/-- Exchanging the order in which two cost lists are folded. -/
lemma foldr_min_exchange (a : Nat) (l1 l2 : List Nat) :
    List.foldr min (List.foldr min a l2) l1 =
      List.foldr min (List.foldr min a l1) l2 := by
  induction l1 with
  | nil => rfl
  | cons c rest ih =>
    simp only [List.foldr_cons, ih]
    rw [← foldr_min_shift]

/-- Unfolding the cost list of the hub branch. -/
lemma hubCosts_cons (cols destId c : Nat) (rest : List Nat) :
    hubCosts cols destId (c :: rest) =
      (distM cols c destId + 1) :: hubCosts cols destId rest := rfl

/-- The hub-branch loop computes the minimum of its candidate costs. -/
lemma hubScan_fst (cols destId : Nat) (l : List Nat) (s : Nat × Int × Int) :
    (hubScan cols destId l s).1 = List.foldr min s.1 (hubCosts cols destId l) := by
  induction l generalizing s with
  | nil => rfl
  | cons c rest ih =>
    simp only [hubScan]
    rw [hubCosts_cons, List.foldr_cons]
    by_cases h : distM cols c destId + 1 < s.1
    · rw [if_pos h, ih]
      nth_rewrite 1 [← min_eq_left (le_of_lt h)]
      exact foldr_min_shift _ _ _
    · rw [if_neg h, ih]
      exact (min_eq_right
        (le_trans (foldr_min_le_init _ _) (by omega))).symm

/-- The hub-branch loop either keeps its starting state or ends at the
state generated by some adjacent hub. -/
lemma hubScan_cases (cols destId : Nat) (l : List Nat) (s : Nat × Int × Int) :
    hubScan cols destId l s = s ∨
      ∃ c ∈ l, hubScan cols destId l s =
        (distM cols c destId + 1, Int.ofNat c, Int.ofNat c) := by
  induction l generalizing s with
  | nil => exact Or.inl rfl
  | cons c rest ih =>
    simp only [hubScan]
    by_cases h : distM cols c destId + 1 < s.1
    · rw [if_pos h]
      rcases ih (distM cols c destId + 1, Int.ofNat c, Int.ofNat c) with
        heq | ⟨c2, hc2, heq⟩
      · exact Or.inr ⟨c, List.mem_cons_self c rest, heq⟩
      · exact Or.inr ⟨c2, List.mem_cons_of_mem _ hc2, heq⟩
    · rw [if_neg h]
      rcases ih s with heq | ⟨c2, hc2, heq⟩
      · exact Or.inl heq
      · exact Or.inr ⟨c2, List.mem_cons_of_mem _ hc2, heq⟩

/-- The inner non-hub loop computes the minimum of its candidate costs. -/
lemma pairScan_fst (cols myId destId h1 : Nat) (l : List Nat)
    (s : Nat × Int × Int) :
    (pairScan cols myId destId h1 l s).1 =
      List.foldr min s.1
        (l.map (fun h2 => distM cols myId h1 + 1 + distM cols h2 destId)) := by
  induction l generalizing s with
  | nil => rfl
  | cons h2 rest ih =>
    simp only [pairScan]
    rw [List.map_cons, List.foldr_cons]
    by_cases h : distM cols myId h1 + 1 + distM cols h2 destId < s.1
    · rw [if_pos h, ih]
      nth_rewrite 1 [← min_eq_left (le_of_lt h)]
      exact foldr_min_shift _ _ _
    · rw [if_neg h, ih]
      exact (min_eq_right
        (le_trans (foldr_min_le_init _ _) (by omega))).symm

/-- The inner non-hub loop either keeps its starting state or ends at the
state generated by some adjacent exit hub. -/
lemma pairScan_cases (cols myId destId h1 : Nat) (l : List Nat)
    (s : Nat × Int × Int) :
    pairScan cols myId destId h1 l s = s ∨
      ∃ h2 ∈ l, pairScan cols myId destId h1 l s =
        (distM cols myId h1 + 1 + distM cols h2 destId,
          Int.ofNat h1, Int.ofNat h2) := by
  induction l generalizing s with
  | nil => exact Or.inl rfl
  | cons h2 rest ih =>
    simp only [pairScan]
    by_cases h : distM cols myId h1 + 1 + distM cols h2 destId < s.1
    · rw [if_pos h]
      rcases ih (distM cols myId h1 + 1 + distM cols h2 destId,
          Int.ofNat h1, Int.ofNat h2) with heq | ⟨h3, hh3, heq⟩
      · exact Or.inr ⟨h2, List.mem_cons_self h2 rest, heq⟩
      · exact Or.inr ⟨h3, List.mem_cons_of_mem _ hh3, heq⟩
    · rw [if_neg h]
      rcases ih s with heq | ⟨h3, hh3, heq⟩
      · exact Or.inl heq
      · exact Or.inr ⟨h3, List.mem_cons_of_mem _ hh3, heq⟩

/-- The outer non-hub loop computes the minimum of all pair costs. -/
lemma nonHubScan_fst (cols myId destId : Nat) (m : List (Nat × List Nat))
    (s : Nat × Int × Int) :
    (nonHubScan cols myId destId m s).1 =
      List.foldr min s.1 (pairCosts cols myId destId m) := by
  induction m generalizing s with
  | nil => simp [nonHubScan, pairCosts]
  | cons p rest ih =>
    simp only [nonHubScan, pairCosts, List.foldr_append]
    rw [ih, pairScan_fst]
    exact foldr_min_exchange _ _ _

/-- The outer non-hub loop either keeps its starting state or ends at the
state generated by some entry/exit hub pair of the adjacency map. -/
lemma nonHubScan_cases (cols myId destId : Nat) (m : List (Nat × List Nat))
    (s : Nat × Int × Int) :
    nonHubScan cols myId destId m s = s ∨
      ∃ p ∈ m, ∃ h2 ∈ p.2, nonHubScan cols myId destId m s =
        (distM cols myId p.1 + 1 + distM cols h2 destId,
          Int.ofNat p.1, Int.ofNat h2) := by
  induction m generalizing s with
  | nil => exact Or.inl rfl
  | cons p rest ih =>
    simp only [nonHubScan]
    rcases pairScan_cases cols myId destId p.1 p.2 s with heq | ⟨h2, hh2, heq⟩
    · rw [heq]
      rcases ih s with heq2 | ⟨p2, hp2, h3, hh3, heq2⟩
      · exact Or.inl heq2
      · exact Or.inr ⟨p2, List.mem_cons_of_mem _ hp2, h3, hh3, heq2⟩
    · rw [heq]
      rcases ih (distM cols myId p.1 + 1 + distM cols h2 destId,
          Int.ofNat p.1, Int.ofNat h2) with heq2 | ⟨p2, hp2, h3, hh3, heq2⟩
      · exact Or.inr ⟨p, List.mem_cons_self p rest, h2, hh2, heq2⟩
      · exact Or.inr ⟨p2, List.mem_cons_of_mem _ hp2, h3, hh3, heq2⟩

/-- Every pair cost is a member of the flattened pair-cost list. -/
lemma mem_pairCosts (cols myId destId : Nat) (m : List (Nat × List Nat))
    (p : Nat × List Nat) (hp : p ∈ m) (h2 : Nat) (hh2 : h2 ∈ p.2) :
    distM cols myId p.1 + 1 + distM cols h2 destId ∈
      pairCosts cols myId destId m := by
  induction m with
  | nil => cases hp
  | cons q rest ih =>
    simp only [pairCosts, List.mem_append]
    rcases List.mem_cons.mp hp with rfl | hmem
    · exact Or.inl (List.mem_map_of_mem _ hh2)
    · exact Or.inr (ih hmem)

/-- When no key of the association list equals the queried id, the lookup
fails. -/
lemma dlookup_eq_none {α β : Type} [DecidableEq α] (l : List (α × β)) (a : α)
    (h : ∀ p ∈ l, p.1 ≠ a) : dlookup l a = none := by
  induction l with
  | nil => rfl
  | cons q rest ih =>
    simp only [dlookup]
    rw [if_neg (h q (List.mem_cons_self q rest))]
    exact ih (fun p hp => h p (List.mem_cons_of_mem _ hp))

/-- Decoding a non-negative C++ id with truncated division matches the
`Nat` column decoding. -/
lemma coordXI_ofNat (cols n : Nat) : coordXI cols (Int.ofNat n) = coordX cols n :=
  rfl

/-- Decoding a non-negative C++ id with truncated division matches the
`Nat` row decoding. -/
lemma coordYI_ofNat (cols n : Nat) : coordYI cols (Int.ofNat n) = coordY cols n :=
  rfl

/-- Core property of the hybrid first-step direction: toward distinct
target coordinates it is horizontal exactly when the columns differ and
one step reduces the Manhattan distance to the target by one. -/
lemma stepDirFromCoords_spec (mx myy nx ny : Int) (h : ¬(nx = mx ∧ ny = myy)) :
    (nx ≠ mx → (stepDirFromCoords mx myy nx ny = PortDirection.east ∨
      stepDirFromCoords mx myy nx ny = PortDirection.west)) ∧
    (nx = mx → (stepDirFromCoords mx myy nx ny = PortDirection.north ∨
      stepDirFromCoords mx myy nx ny = PortDirection.south)) ∧
    mdist (moveDir (stepDirFromCoords mx myy nx ny) (mx, myy)) (nx, ny) + 1 =
      mdist (mx, myy) (nx, ny) := by
  unfold stepDirFromCoords
  split_ifs with h1 h2 h3 h4
  · exact ⟨fun _ => Or.inl rfl, fun he => by omega,
      by simp only [moveDir, mdist]; omega⟩
  · exact ⟨fun _ => Or.inr rfl, fun he => by omega,
      by simp only [moveDir, mdist]; omega⟩
  · exact ⟨fun hne => by omega, fun _ => Or.inl rfl,
      by simp only [moveDir, mdist]; omega⟩
  · exact ⟨fun hne => by omega, fun _ => Or.inr rfl,
      by simp only [moveDir, mdist]; omega⟩
  · exact absurd ⟨by omega, by omega⟩ h

/-- Branch equation for a hardcoded hub router. -/
lemma hybridScanResult_hub (st : RouterState) (destId : Nat)
    (hhub : isHybridRouterId st.myId = true) :
    hybridScanResult st destId =
      hubScan st.numCols destId (adjOf st.hybridConnections st.myId)
        (intMax, -1, -1) := by
  unfold hybridScanResult
  rw [if_pos hhub]

/-- Branch equation for a router outside the hardcoded hub set. -/
lemma hybridScanResult_nonhub (st : RouterState) (destId : Nat)
    (hhub : ¬ isHybridRouterId st.myId = true) :
    hybridScanResult st destId =
      nonHubScan st.numCols st.myId destId st.hybridConnections
        (intMax, -1, -1) := by
  unfold hybridScanResult
  rw [if_neg hhub]

/-- A hub-branch scan that beats `INT_MAX` ends at the state of some
adjacent hub. -/
lemma hybridScanResult_hub_attained (st : RouterState) (destId : Nat)
    (hhub : isHybridRouterId st.myId = true)
    (hlt : (hybridScanResult st destId).1 < intMax) :
    ∃ c ∈ adjOf st.hybridConnections st.myId,
      hybridScanResult st destId =
        (distM st.numCols c destId + 1, Int.ofNat c, Int.ofNat c) := by
  rw [hybridScanResult_hub st destId hhub] at hlt ⊢
  rcases hubScan_cases st.numCols destId (adjOf st.hybridConnections st.myId)
      (intMax, -1, -1) with heq | hex
  · rw [heq] at hlt
    exact absurd hlt (lt_irrefl _)
  · exact hex

/-- A non-hub-branch scan that beats `INT_MAX` ends at the state of some
entry/exit hub pair. -/
lemma hybridScanResult_nonhub_attained (st : RouterState) (destId : Nat)
    (hhub : ¬ isHybridRouterId st.myId = true)
    (hlt : (hybridScanResult st destId).1 < intMax) :
    ∃ pr ∈ st.hybridConnections, ∃ h2 ∈ pr.2,
      hybridScanResult st destId =
        (distM st.numCols st.myId pr.1 + 1 + distM st.numCols h2 destId,
          Int.ofNat pr.1, Int.ofNat h2) := by
  rw [hybridScanResult_nonhub st destId hhub] at hlt ⊢
  rcases nonHubScan_cases st.numCols st.myId destId st.hybridConnections
      (intMax, -1, -1) with heq | hex
  · rw [heq] at hlt
    exact absurd hlt (lt_irrefl _)
  · exact hex

/-- When the hybrid cost does not beat the wired cost, the Hybrid Router
returns the dimension-order port paired with hub id `-1`. -/
lemma custom_xy_fallback (st : RouterState) (destId : Nat)
    (hne : st.myId ≠ destId)
    (hge : distM st.numCols st.myId destId ≤ (hybridScanResult st destId).1) :
    ∃ q, outportComputeXY st destId = some q ∧
      outportComputeCustom st destId = some (q, -1) := by
  obtain ⟨d, hd⟩ := xyOutportDirn_isSome st.numCols st.myId destId hne
  refine ⟨dirn2idx st d, ?_, ?_⟩
  · unfold outportComputeXY
    rw [hd]
    rfl
  · unfold outportComputeCustom
    rw [if_neg (by omega)]
    unfold outportComputeXY
    rw [hd]
    rfl

/-- When the hybrid cost beats the wired cost (and the wired cost is a
representable `int`), the Hybrid Router returns some port paired with a
non-negative hub id. -/
lemma custom_hybrid_selected (st : RouterState) (destId : Nat)
    (hlt : (hybridScanResult st destId).1 < distM st.numCols st.myId destId)
    (hbound : distM st.numCols st.myId destId ≤ intMax) :
    ∃ q h2, outportComputeCustom st destId = some (q, Int.ofNat h2) := by
  have hfst : (hybridScanResult st destId).1 < intMax :=
    lt_of_lt_of_le hlt hbound
  unfold outportComputeCustom
  rw [if_pos hlt]
  by_cases hhub : isHybridRouterId st.myId = true
  · rw [if_pos hhub]
    obtain ⟨c, hc, heq⟩ := hybridScanResult_hub_attained st destId hhub hfst
    exact ⟨_, c, by rw [heq]⟩
  · rw [if_neg hhub]
    obtain ⟨pr, hpr, h2, hh2, heq⟩ :=
      hybridScanResult_nonhub_attained st destId hhub hfst
    exact ⟨_, h2, by rw [heq]⟩

/-! ## Claim C2 -/

/-- C2 counterexample: router 18 is in the hardcoded hub set; with the
configured adjacency `{21 -> [45]}` (which does not list 18) and
destination 44 on an 8-column mesh, the single-wireless-hop path
`18 -> 21 (wired), 21 -> 45 (wireless), 45 -> 44 (wired)` costs 5 hops,
yet the computed `hybrid_hops` stays `INT_MAX`, so it is not the true
minimum over single-wireless-hop paths. -/
theorem c2_hybrid_optimality_counterexample :
    isHybridRouterId 18 = true ∧
      (21, [45]) ∈ (RouterState.mk 18 8 8 [] [(21, [45])] [] [] []).hybridConnections ∧
      45 ∈ [45] ∧
      distM 8 18 21 + 1 + distM 8 45 44 = 5 ∧
      (hybridScanResult (RouterState.mk 18 8 8 [] [(21, [45])] [] [] []) 44).1 =
        intMax ∧
      ¬((hybridScanResult (RouterState.mk 18 8 8 [] [(21, [45])] [] [] []) 44).1 ≤
        distM 8 18 21 + 1 + distM 8 45 44) := by
  decide

/-- C2 amended: for source routers outside the hardcoded hub set
{18, 21, 45, 50}, `hybridHops` equals the true minimum hop count over all
single-wireless-hop paths through the hub-adjacency graph (stated as the
minimum of the pair-cost list, as a lower bound on every such path, and as
attained unless no path exists); the engine selects the wired XY route
whenever `hybridHops >= xyHops` and the hybrid path otherwise.  (For
hardcoded hub routers the computed value is restricted to wireless hops
leaving the router itself and can exceed the true minimum.) -/
theorem c2_hybrid_optimality_amended (st : RouterState) (destId : Nat)
    (hhub : ¬ isHybridRouterId st.myId = true)
    (hne : st.myId ≠ destId)
    (hbound : distM st.numCols st.myId destId ≤ intMax) :
    (hybridScanResult st destId).1 =
      listMin (pairCosts st.numCols st.myId destId st.hybridConnections) ∧
    (∀ pr ∈ st.hybridConnections, ∀ h2 ∈ pr.2,
      (hybridScanResult st destId).1 ≤
        distM st.numCols st.myId pr.1 + 1 + distM st.numCols h2 destId) ∧
    ((hybridScanResult st destId).1 = intMax ∨
      ∃ pr ∈ st.hybridConnections, ∃ h2 ∈ pr.2,
        (hybridScanResult st destId).1 =
          distM st.numCols st.myId pr.1 + 1 + distM st.numCols h2 destId) ∧
    (distM st.numCols st.myId destId ≤ (hybridScanResult st destId).1 →
      ∃ q, outportComputeXY st destId = some q ∧
        outportComputeCustom st destId = some (q, -1)) ∧
    ((hybridScanResult st destId).1 < distM st.numCols st.myId destId →
      ∃ q h2, outportComputeCustom st destId = some (q, Int.ofNat h2)) := by
  refine ⟨?_, ?_, ?_, ?_, ?_⟩
  · rw [hybridScanResult_nonhub st destId hhub, nonHubScan_fst]
    rfl
  · intro pr hpr h2 hh2
    rw [hybridScanResult_nonhub st destId hhub, nonHubScan_fst]
    exact foldr_min_le_mem
      (mem_pairCosts st.numCols st.myId destId st.hybridConnections pr hpr h2
        hh2) _
  · rw [hybridScanResult_nonhub st destId hhub]
    rcases nonHubScan_cases st.numCols st.myId destId st.hybridConnections
        (intMax, -1, -1) with heq | ⟨pr, hpr, h2, hh2, heq⟩
    · left
      rw [heq]
    · right
      exact ⟨pr, hpr, h2, hh2, by rw [heq]⟩
  · intro hge
    exact custom_xy_fallback st destId hne hge
  · intro hlt
    exact custom_hybrid_selected st destId hlt hbound

/-- C2 witness: router 0 (not a hardcoded hub) with adjacency
`{1 -> [62]}` and destination 62. -/
theorem c2_hybrid_optimality_amended_witness :
    (¬ isHybridRouterId 0 = true) ∧ (0 : Nat) ≠ 62 ∧ distM 8 0 62 ≤ intMax ∧
      ((hybridScanResult (RouterState.mk 0 8 8 [(PortDirection.east, 3)]
          [(1, [62])] [] [] []) 62).1 =
        listMin (pairCosts 8 0 62 (RouterState.mk 0 8 8
          [(PortDirection.east, 3)] [(1, [62])] [] [] []).hybridConnections) ∧
      (∀ pr ∈ (RouterState.mk 0 8 8 [(PortDirection.east, 3)] [(1, [62])]
          [] [] []).hybridConnections, ∀ h2 ∈ pr.2,
        (hybridScanResult (RouterState.mk 0 8 8 [(PortDirection.east, 3)]
            [(1, [62])] [] [] []) 62).1 ≤
          distM 8 0 pr.1 + 1 + distM 8 h2 62) ∧
      ((hybridScanResult (RouterState.mk 0 8 8 [(PortDirection.east, 3)]
          [(1, [62])] [] [] []) 62).1 = intMax ∨
        ∃ pr ∈ (RouterState.mk 0 8 8 [(PortDirection.east, 3)] [(1, [62])]
            [] [] []).hybridConnections, ∃ h2 ∈ pr.2,
          (hybridScanResult (RouterState.mk 0 8 8 [(PortDirection.east, 3)]
              [(1, [62])] [] [] []) 62).1 =
            distM 8 0 pr.1 + 1 + distM 8 h2 62) ∧
      (distM 8 0 62 ≤ (hybridScanResult (RouterState.mk 0 8 8
          [(PortDirection.east, 3)] [(1, [62])] [] [] []) 62).1 →
        ∃ q, outportComputeXY (RouterState.mk 0 8 8 [(PortDirection.east, 3)]
            [(1, [62])] [] [] []) 62 = some q ∧
          outportComputeCustom (RouterState.mk 0 8 8 [(PortDirection.east, 3)]
            [(1, [62])] [] [] []) 62 = some (q, -1)) ∧
      ((hybridScanResult (RouterState.mk 0 8 8 [(PortDirection.east, 3)]
          [(1, [62])] [] [] []) 62).1 < distM 8 0 62 →
        ∃ q h2, outportComputeCustom (RouterState.mk 0 8 8
            [(PortDirection.east, 3)] [(1, [62])] [] [] []) 62 =
          some (q, Int.ofNat h2))) :=
  ⟨by decide, by decide, by decide,
    c2_hybrid_optimality_amended
      (RouterState.mk 0 8 8 [(PortDirection.east, 3)] [(1, [62])] [] [] []) 62
      (by decide) (by decide) (by decide)⟩

/-! ## Claim C3 -/

/-- C3 counterexample: with the configured mapping `{21 -> [45]}` router 18
is not a configured hub, yet the engine applies the hub-case computation
(over the hardcoded set {18, 21, 45, 50}), producing `INT_MAX` where the
configured-hub reading would produce the non-hub minimum 5. -/
theorem c3_hub_membership_counterexample :
    (∀ pr ∈ (RouterState.mk 18 8 8 [] [(21, [45])] [] [] []).hybridConnections,
      pr.1 ≠ (RouterState.mk 18 8 8 [] [(21, [45])] [] [] []).myId) ∧
      listMin (pairCosts 8 18 44
        (RouterState.mk 18 8 8 [] [(21, [45])] [] [] []).hybridConnections) = 5 ∧
      (hybridScanResult (RouterState.mk 18 8 8 [] [(21, [45])] [] [] []) 44).1 =
        intMax ∧
      (hybridScanResult (RouterState.mk 18 8 8 [] [(21, [45])] [] [] []) 44).1 ≠
        listMin (pairCosts 8 18 44
          (RouterState.mk 18 8 8 [] [(21, [45])] [] [] []).hybridConnections) := by
  decide

/-- C3 amended: the Hybrid Router treats exactly the hardcoded routers
18, 45, 50, 21 as hubs, independently of the configured hub-adjacency
mapping: for every mapping, the computed hop value is the hub-case
minimum (over the router's own configured adjacency, plus one) exactly
when the router id is in the hardcoded set, and otherwise the non-hub
minimum over all configured entry/exit hub pairs. -/
theorem c3_hub_membership_amended (st : RouterState) (destId : Nat) :
    (hybridScanResult st destId).1 =
      if isHybridRouterId st.myId then
        listMin (hubCosts st.numCols destId (adjOf st.hybridConnections st.myId))
      else
        listMin (pairCosts st.numCols st.myId destId st.hybridConnections) := by
  by_cases hhub : isHybridRouterId st.myId = true
  · rw [if_pos hhub, hybridScanResult_hub st destId hhub, hubScan_fst]
    rfl
  · rw [if_neg hhub, hybridScanResult_nonhub st destId hhub, nonHubScan_fst]
    rfl

/-! ## Claim C8 -/

/-- C8: whenever the hybrid hop count is not strictly smaller than the
XY hop count — in particular at ties — the Hybrid Router returns exactly
the dimension-order port with `shortcutHubId = -1`; when it is strictly
smaller, a hybrid port with a non-negative hub id is returned. -/
theorem c8_tie_prefers_wired (st : RouterState) (destId : Nat)
    (hne : st.myId ≠ destId)
    (hbound : distM st.numCols st.myId destId ≤ intMax) :
    (distM st.numCols st.myId destId ≤ (hybridScanResult st destId).1 →
      ∃ q, outportComputeXY st destId = some q ∧
        outportComputeCustom st destId = some (q, -1)) ∧
    ((hybridScanResult st destId).1 < distM st.numCols st.myId destId →
      ∃ q h2, outportComputeCustom st destId = some (q, Int.ofNat h2) ∧
        (Int.ofNat h2 : Int) ≠ -1) := by
  constructor
  · intro hge
    exact custom_xy_fallback st destId hne hge
  · intro hlt
    obtain ⟨q, h2, hq⟩ := custom_hybrid_selected st destId hlt hbound
    refine ⟨q, h2, hq, ?_⟩
    have h0 : Int.ofNat h2 = (h2 : Int) := rfl
    omega

/-- C8 witness: router 0, adjacency `{1 -> [62]}`, destination 62 (hybrid
strictly better), applied through the theorem. -/
theorem c8_tie_prefers_wired_witness :
    (0 : Nat) ≠ 62 ∧ distM 8 0 62 ≤ intMax ∧
      ((distM 8 0 62 ≤ (hybridScanResult (RouterState.mk 0 8 8
          [(PortDirection.east, 3)] [(1, [62])] [] [] []) 62).1 →
        ∃ q, outportComputeXY (RouterState.mk 0 8 8 [(PortDirection.east, 3)]
            [(1, [62])] [] [] []) 62 = some q ∧
          outportComputeCustom (RouterState.mk 0 8 8 [(PortDirection.east, 3)]
            [(1, [62])] [] [] []) 62 = some (q, -1)) ∧
      ((hybridScanResult (RouterState.mk 0 8 8 [(PortDirection.east, 3)]
          [(1, [62])] [] [] []) 62).1 < distM 8 0 62 →
        ∃ q h2, outportComputeCustom (RouterState.mk 0 8 8
            [(PortDirection.east, 3)] [(1, [62])] [] [] []) 62 =
          some (q, Int.ofNat h2) ∧ (Int.ofNat h2 : Int) ≠ -1)) :=
  ⟨by decide, by decide,
    c8_tie_prefers_wired
      (RouterState.mk 0 8 8 [(PortDirection.east, 3)] [(1, [62])] [] [] []) 62
      (by decide) (by decide)⟩

/-! ## Claim C9 -/

/-- C9: at a router that is not a configured hub, a hybrid-path selection
returns the port of the single-step geometric direction toward the chosen
entry hub (horizontal whenever the columns differ, vertical only when the
columns agree, one step reducing the distance to the hub by one) together
with the chosen exit hub id, which is never `-1`. -/
theorem c9_nonhub_hybrid_direction (st : RouterState) (destId : Nat)
    (hkeys : ∀ pr ∈ st.hybridConnections, pr.1 ≠ st.myId)
    (hsel : (hybridScanResult st destId).1 < distM st.numCols st.myId destId)
    (hbound : distM st.numCols st.myId destId ≤ intMax) :
    ∃ h1 h2 adj, ((h1, adj) ∈ st.hybridConnections ∧ h2 ∈ adj) ∧
      (hybridScanResult st destId).1 =
        distM st.numCols st.myId h1 + 1 + distM st.numCols h2 destId ∧
      outportComputeCustom st destId =
        some (dirn2idx st (stepDirTowardI st.numCols st.myId (Int.ofNat h1)),
          Int.ofNat h2) ∧
      (Int.ofNat h2 : Int) ≠ -1 ∧
      (coordX st.numCols h1 ≠ coordX st.numCols st.myId →
        (stepDirTowardI st.numCols st.myId (Int.ofNat h1) = PortDirection.east ∨
         stepDirTowardI st.numCols st.myId (Int.ofNat h1) = PortDirection.west)) ∧
      (coordX st.numCols h1 = coordX st.numCols st.myId →
        (stepDirTowardI st.numCols st.myId (Int.ofNat h1) = PortDirection.north ∨
         stepDirTowardI st.numCols st.myId (Int.ofNat h1) = PortDirection.south)) ∧
      mdist (moveDir (stepDirTowardI st.numCols st.myId (Int.ofNat h1))
          (coordP st.numCols st.myId)) (coordP st.numCols h1) + 1 =
        distM st.numCols st.myId h1 := by
  have hfst : (hybridScanResult st destId).1 < intMax :=
    lt_of_lt_of_le hsel hbound
  by_cases hhub : isHybridRouterId st.myId = true
  · exfalso
    have hadj : adjOf st.hybridConnections st.myId = [] := by
      unfold adjOf
      rw [dlookup_eq_none st.hybridConnections st.myId hkeys]
      rfl
    rw [hybridScanResult_hub st destId hhub, hadj] at hfst
    exact absurd hfst (lt_irrefl _)
  · obtain ⟨pr, hpr, h2, hh2, heq⟩ :=
      hybridScanResult_nonhub_attained st destId hhub hfst
    have hne1 : st.myId ≠ pr.1 := fun hcon => (hkeys pr hpr) hcon.symm
    have hcoords := coords_ne_of_id_ne st.numCols st.myId pr.1 hne1
    have hstep : stepDirTowardI st.numCols st.myId (Int.ofNat pr.1) =
        stepDirFromCoords (coordX st.numCols st.myId)
          (coordY st.numCols st.myId) (coordX st.numCols pr.1)
          (coordY st.numCols pr.1) := by
      unfold stepDirTowardI
      rw [coordXI_ofNat, coordYI_ofNat]
    have hspec := stepDirFromCoords_spec (coordX st.numCols st.myId)
        (coordY st.numCols st.myId) (coordX st.numCols pr.1)
        (coordY st.numCols pr.1)
        (by rcases hcoords with hx | hy
            · exact fun hand => hx hand.1.symm
            · exact fun hand => hy hand.2.symm)
    refine ⟨pr.1, h2, pr.2, ⟨hpr, hh2⟩, ?_, ?_, ?_, ?_, ?_, ?_⟩
    · rw [heq]
    · unfold outportComputeCustom
      rw [if_pos hsel, if_neg hhub, heq]
    · have h0 : Int.ofNat h2 = (h2 : Int) := rfl
      omega
    · intro hx
      rw [hstep]
      exact hspec.1 hx
    · intro hx
      rw [hstep]
      exact hspec.2.1 hx
    · rw [hstep]
      exact hspec.2.2

/-- C9 witness: router 0 (non-hub), adjacency `{1 -> [62]}`, destination
62: the hybrid path is chosen, the step goes toward hub 1, and the exit
hub id 62 is returned. -/
theorem c9_nonhub_hybrid_direction_witness :
    (∀ pr ∈ (RouterState.mk 0 8 8 [(PortDirection.east, 3)] [(1, [62])]
        [] [] []).hybridConnections, pr.1 ≠ 0) ∧
      (hybridScanResult (RouterState.mk 0 8 8 [(PortDirection.east, 3)]
        [(1, [62])] [] [] []) 62).1 < distM 8 0 62 ∧
      distM 8 0 62 ≤ intMax ∧
      (∃ h1 h2 adj, ((h1, adj) ∈ (RouterState.mk 0 8 8
          [(PortDirection.east, 3)] [(1, [62])] [] [] []).hybridConnections ∧
          h2 ∈ adj) ∧
        (hybridScanResult (RouterState.mk 0 8 8 [(PortDirection.east, 3)]
            [(1, [62])] [] [] []) 62).1 =
          distM 8 0 h1 + 1 + distM 8 h2 62 ∧
        outportComputeCustom (RouterState.mk 0 8 8 [(PortDirection.east, 3)]
            [(1, [62])] [] [] []) 62 =
          some (dirn2idx (RouterState.mk 0 8 8 [(PortDirection.east, 3)]
              [(1, [62])] [] [] [])
              (stepDirTowardI 8 0 (Int.ofNat h1)), Int.ofNat h2) ∧
        (Int.ofNat h2 : Int) ≠ -1 ∧
        (coordX 8 h1 ≠ coordX 8 0 →
          (stepDirTowardI 8 0 (Int.ofNat h1) = PortDirection.east ∨
           stepDirTowardI 8 0 (Int.ofNat h1) = PortDirection.west)) ∧
        (coordX 8 h1 = coordX 8 0 →
          (stepDirTowardI 8 0 (Int.ofNat h1) = PortDirection.north ∨
           stepDirTowardI 8 0 (Int.ofNat h1) = PortDirection.south)) ∧
        mdist (moveDir (stepDirTowardI 8 0 (Int.ofNat h1)) (coordP 8 0))
            (coordP 8 h1) + 1 = distM 8 0 h1) :=
  ⟨by decide, by decide, by decide,
    c9_nonhub_hybrid_direction
      (RouterState.mk 0 8 8 [(PortDirection.east, 3)] [(1, [62])] [] [] []) 62
      (by decide) (by decide) (by decide)⟩

end Garnet
